import Mathlib

/-!
Shallow embedding of the skill-marketplace synchronization and installation
engine of this repository (the `GithubSkillSource` aggregation and cache layer
and the `SkillInstaller` service).  JavaScript strings are modelled as
`List Char`; filesystem and network effects are modelled by explicit state
passing and by outcome parameters that stand for the result of each I/O call.
Each claim theorem is stated over these definitions.
-/

namespace SkillMarket

/-! ### Skill-id / directory-name transforms (`SkillInstaller`)

`getSafeDirName` is the JS global replacement of `:` by `--` in the skill id;
`getSkillIdFromDirName` is the JS global replacement of `--` by `:` in the
directory name (global regex replacement scans left to right and matches do
not overlap). -/

/-- `SkillInstaller.getSafeDirName`: replace every `:` with `--`. -/
def getSafeDirName : List Char → List Char
  | [] => []
  | c :: rest =>
    if c = ':' then '-' :: '-' :: getSafeDirName rest
    else c :: getSafeDirName rest

/-- `SkillInstaller.getSkillIdFromDirName`: replace every non-overlapping
`--` (left to right) with `:`. -/
def getSkillIdFromDirName : List Char → List Char
  | [] => []
  | [c] => [c]
  | c :: d :: rest =>
    if c = '-' ∧ d = '-' then ':' :: getSkillIdFromDirName rest
    else c :: getSkillIdFromDirName (d :: rest)

theorem getSafeDirName_append (xs ys : List Char) :
    getSafeDirName (xs ++ ys) = getSafeDirName xs ++ getSafeDirName ys := by
  induction xs with
  | nil => rfl
  | cons c rest ih =>
    by_cases h : c = ':' <;> simp [getSafeDirName, h, ih]

theorem getSafeDirName_of_no_colon {xs : List Char} (h : ':' ∉ xs) :
    getSafeDirName xs = xs := by
  induction xs with
  | nil => rfl
  | cons c rest ih =>
    simp only [List.mem_cons, not_or] at h
    have hc : ¬c = ':' := fun hc => h.1 hc.symm
    simp [getSafeDirName, hc, ih h.2]

theorem getSkillIdFromDirName_cons_ne {c : Char} (h : c ≠ '-') (l : List Char) :
    getSkillIdFromDirName (c :: l) = c :: getSkillIdFromDirName l := by
  cases l <;> simp [getSkillIdFromDirName, h]

theorem getSkillIdFromDirName_of_no_dash {xs : List Char} (h : '-' ∉ xs) :
    getSkillIdFromDirName xs = xs := by
  induction xs with
  | nil => rfl
  | cons c rest ih =>
    simp only [List.mem_cons, not_or] at h
    have hc : c ≠ '-' := fun hc => h.1 hc.symm
    rw [getSkillIdFromDirName_cons_ne hc, ih h.2]

theorem getSkillIdFromDirName_append_dashes {s : List Char} (h : '-' ∉ s)
    (l : List Char) :
    getSkillIdFromDirName (s ++ '-' :: '-' :: l)
      = s ++ ':' :: getSkillIdFromDirName l := by
  induction s with
  | nil => simp [getSkillIdFromDirName]
  | cons c rest ih =>
    simp only [List.mem_cons, not_or] at h
    have hc : c ≠ '-' := fun hc => h.1 hc.symm
    rw [List.cons_append, getSkillIdFromDirName_cons_ne hc, ih h.2,
      List.cons_append]

/-- C3: identity round-trip.  For `sourceId` and `localName` containing
neither `:` nor `-`, converting the composite id `sourceId ++ ":" ++ localName`
to a directory name (`:` ↦ `--`) and back (`--` ↦ `:`) yields the original id,
and on such directory names `getSafeDirName` is the exact inverse of
`getSkillIdFromDirName`. -/
theorem safeDirName_roundTrip (s l : List Char)
    (hs : ':' ∉ s) (hsd : '-' ∉ s) (hl : ':' ∉ l) (hld : '-' ∉ l) :
    getSkillIdFromDirName (getSafeDirName (s ++ ':' :: l)) = s ++ ':' :: l ∧
    getSafeDirName (getSkillIdFromDirName (getSafeDirName (s ++ ':' :: l)))
      = getSafeDirName (s ++ ':' :: l) := by
  have hmid : getSafeDirName (s ++ ':' :: l) = s ++ '-' :: '-' :: l := by
    have hsplit : s ++ ':' :: l = s ++ [':'] ++ l := by simp
    have hcolon : getSafeDirName [':'] = ['-', '-'] := by decide
    rw [hsplit, getSafeDirName_append, getSafeDirName_append,
      getSafeDirName_of_no_colon hs, getSafeDirName_of_no_colon hl, hcolon]
    simp
  have hback : getSkillIdFromDirName (getSafeDirName (s ++ ':' :: l))
      = s ++ ':' :: l := by
    rw [hmid, getSkillIdFromDirName_append_dashes hsd,
      getSkillIdFromDirName_of_no_dash hld]
  exact ⟨hback, by rw [hback]⟩

/-- Witness for C3 at a concrete source id `ab` and local name `c`. -/
theorem safeDirName_roundTrip_witness :
    getSkillIdFromDirName (getSafeDirName (['a', 'b'] ++ ':' :: ['c']))
      = ['a', 'b'] ++ ':' :: ['c'] ∧
    getSafeDirName (getSkillIdFromDirName
        (getSafeDirName (['a', 'b'] ++ ':' :: ['c'])))
      = getSafeDirName (['a', 'b'] ++ ':' :: ['c']) :=
  safeDirName_roundTrip ['a', 'b'] ['c']
    (by decide) (by decide) (by decide) (by decide)

/-! ### Data model (`Skill`, `SkillCache`, `CacheLoadResult`)

A `Skill` is the unified package record assembled by the aggregation layer
(`models/Skill.ts` plus the provenance and version fields set by
`GenericSkillSource.toSkill` / `fetchSkills`).  Optional JS fields are
`Option`; JS truthiness of an optional string (`undefined` and `''` are both
falsy) is `truthy`. -/

structure Skill where
  id : List Char
  name : List Char
  desc : List Char
  category : List Char
  icon : List Char
  colors : List Char × List Char
  isFeatured : Bool
  repoLink : Option (List Char)
  repoOwner : Option (List Char)
  repoName : Option (List Char)
  skillPath : Option (List Char)
  source : Option (List Char)
  branch : Option (List Char)
  commitSha : Option (List Char)
  lastUpdated : Option Nat
deriving DecidableEq

/-- JS truthiness of an optional string field: `undefined` and `''` are falsy. -/
def truthy : Option (List Char) → Bool
  | none => false
  | some s => !s.isEmpty

/-- JS `a || b` on an optional string: keep `a` when truthy, else `b`. -/
def jsOr (a : Option (List Char)) (b : List Char) : List Char :=
  match a with
  | some s => if s.isEmpty then b else s
  | none => b

/-- `computeContentHash`: the source computes the MD5 digest of
`JSON.stringify(skills)`.  The digest is modelled as the serialized skill list
itself — a deterministic function of the list, which is the only property the
cache layer relies on (stored digest compared against the recomputed one). -/
def computeContentHash (skills : List Skill) : List Skill :=
  skills

/-- The persisted cache envelope (`SkillCache` in `GithubSkillSource.ts`). -/
structure SkillCache where
  last_update : Nat
  etag : Option (List Char)
  contentHash : Option (List Skill)
  skills : List Skill
deriving DecidableEq

/-- `CacheLoadResult` in `GithubSkillSource.ts`. -/
structure CacheLoadResult where
  skills : List Skill
  etag : Option (List Char)
  isValid : Bool
deriving DecidableEq

/-- Cache freshness window: 24 hours in milliseconds. -/
def cacheTtlMs : Nat := 24 * 60 * 60 * 1000

/-- `GithubSkillSource.saveToCache`: persist the envelope with the current
timestamp, the optional validator token and a fresh content digest. -/
def saveToCache (skills : List Skill) (etag : Option (List Char)) (now : Nat) :
    SkillCache :=
  { last_update := now
    etag := etag
    contentHash := some (computeContentHash skills)
    skills := skills }

/-- `GithubSkillSource.loadFromCache`.  `stored` is the envelope on disk
(`none` when the cache file is missing or unparseable), `now` is `Date.now()`.
An envelope whose stored digest mismatches the recomputed one is reported
empty and invalid; an expired envelope keeps its skills but is invalid. -/
def loadFromCache (stored : Option SkillCache) (now : Nat) : CacheLoadResult :=
  match stored with
  | none => { skills := [], etag := none, isValid := false }
  | some data =>
    match data.contentHash with
    | some stated =>
      if stated ≠ computeContentHash data.skills then
        { skills := [], etag := none, isValid := false }
      else if now - data.last_update > cacheTtlMs then
        { skills := data.skills, etag := data.etag, isValid := false }
      else
        { skills := data.skills, etag := data.etag, isValid := true }
    | none =>
      if now - data.last_update > cacheTtlMs then
        { skills := data.skills, etag := data.etag, isValid := false }
      else
        { skills := data.skills, etag := data.etag, isValid := true }

/-- C4: cache integrity.  An envelope whose stored `contentHash` differs from
the digest recomputed over its `skills` list loads as invalid with an empty
skill list — exactly the result of loading with no cache at all, so every
subsequent fallback decision treats the cache as absent. -/
theorem loadFromCache_integrity_mismatch (data : SkillCache) (now : Nat)
    (stated : List Skill) (hstored : data.contentHash = some stated)
    (hne : stated ≠ computeContentHash data.skills) :
    loadFromCache (some data) now = { skills := [], etag := none, isValid := false } ∧
    loadFromCache (some data) now = loadFromCache none now := by
  constructor <;> simp [loadFromCache, hstored, hne]

/-- A sample skill record used by concrete witnesses. -/
def sampleSkill : Skill :=
  { id := ['a', ':', 'f']
    name := ['f']
    desc := ['d']
    category := ['c']
    icon := ['i']
    colors := (['#', '1'], ['#', '2'])
    isFeatured := true
    repoLink := none
    repoOwner := some ['o']
    repoName := some ['r']
    skillPath := some ['p']
    source := some ['a']
    branch := some ['m']
    commitSha := some ['1', '2', '3']
    lastUpdated := some 5 }

/-- Witness for C4: a concrete envelope whose stored digest (the empty list)
differs from the recomputed digest of its one-element skill list. -/
theorem loadFromCache_integrity_mismatch_witness :
    loadFromCache
        (some { last_update := 0, etag := none, contentHash := some [],
                skills := [sampleSkill] }) 1
      = { skills := [], etag := none, isValid := false } ∧
    loadFromCache
        (some { last_update := 0, etag := none, contentHash := some [],
                skills := [sampleSkill] }) 1
      = loadFromCache none 1 :=
  loadFromCache_integrity_mismatch _ 1 [] rfl (by decide)

/-- C10: cache save/load round-trip.  Saving a skill list and loading it back
within the 24-hour freshness window reports the envelope valid and returns
exactly the saved list and validator token: the digest stored by `saveToCache`
always matches the digest `loadFromCache` recomputes over the reloaded list. -/
theorem saveToCache_loadFromCache_roundTrip (skills : List Skill)
    (etag : Option (List Char)) (tSave tLoad : Nat)
    (hfresh : tLoad - tSave ≤ cacheTtlMs) :
    loadFromCache (some (saveToCache skills etag tSave)) tLoad
      = { skills := skills, etag := etag, isValid := true } := by
  have hexp : ¬tLoad - tSave > cacheTtlMs := by omega
  simp [loadFromCache, saveToCache, computeContentHash, hexp]

/-- Witness for C10 at a concrete list, token and timestamps. -/
theorem saveToCache_loadFromCache_roundTrip_witness :
    loadFromCache (some (saveToCache [sampleSkill] (some ['e']) 10)) 20
      = { skills := [sampleSkill], etag := some ['e'], isValid := true } :=
  saveToCache_loadFromCache_roundTrip [sampleSkill] (some ['e']) 10 20
    (by decide)

/-! ### `fetchSkillList` (aggregation, conditional revalidation, fallback)

Network effects are modelled by outcome parameters carried in `FetchEnv`:
`reval` is the outcome of the single conditional (`If-None-Match`) request of
`checkCacheValidity`, and `sourceResults` holds, per registered source, either
`some skills` (the list `fetchSkills` resolved with) or `none` (the fetch
rejected; the code catches this per source and contributes an empty list while
setting the rate-limited flag). -/

/-- Outcome of the conditional revalidation request in `checkCacheValidity`:
HTTP 304, HTTP 200 carrying a fresh validator token, another status code, or a
network error. -/
inductive RevalOutcome
  | status304
  | status200 (newEtag : Option (List Char))
  | statusOther
  | netError
deriving DecidableEq

/-- `GithubSkillSource.checkCacheValidity`: resolves `notModified = true` only
on HTTP 304; any other status and a network error all resolve
`notModified = false` (with no configured source it resolves `false`
immediately). -/
def checkCacheValidity (numSources : Nat) (outcome : RevalOutcome) :
    Bool × Option (List Char) :=
  if numSources = 0 then (false, none)
  else
    match outcome with
    | .status304 => (true, none)
    | .status200 e => (false, e)
    | .statusOther => (false, none)
    | .netError => (false, none)

/-- The environment of one `fetchSkillList` run: the envelope on disk,
`Date.now()`, the revalidation outcome, the per-source fetch outcomes and the
`fetchRepoEtag` outcome. -/
structure FetchEnv where
  storedCache : Option SkillCache
  now : Nat
  reval : RevalOutcome
  sourceResults : List (Option (List Skill))
  repoEtag : Option (List Char)
deriving DecidableEq

/-- The value `fetchSkillList` resolves with. -/
structure FetchResult where
  skills : List Skill
  isRateLimited : Bool
  fromCache : Bool
deriving DecidableEq

/-- A `fetchSkillList` run together with its observable effects: whether the
per-source fetchers were invoked and the envelope on disk afterwards. -/
structure FetchTrace where
  result : FetchResult
  sourcesInvoked : Bool
  storedAfter : Option SkillCache
deriving DecidableEq

/-- The concatenation of all per-source results (`results.flat()`; a rejected
source contributes `[]`, caught per source). -/
def liveSkills (env : FetchEnv) : List Skill :=
  (env.sourceResults.map (fun r => r.getD [])).flatten

/-- Steps 3-4 of `fetchSkillList`: the live fan-out fetch, persisting a fresh
envelope on a non-empty combined result, otherwise falling back to the
previously loaded cache (regardless of expiry) and finally to an empty,
degraded result. -/
def fetchLive (env : FetchEnv) (cache : CacheLoadResult) : FetchTrace :=
  if !(liveSkills env).isEmpty then
    ⟨⟨liveSkills env, env.sourceResults.any (fun r => r.isNone), false⟩, true,
      some (saveToCache (liveSkills env) env.repoEtag env.now)⟩
  else if !cache.skills.isEmpty then
    ⟨⟨cache.skills, true, true⟩, true, env.storedCache⟩
  else
    ⟨⟨[], true, false⟩, true, env.storedCache⟩

/-- `GithubSkillSource.fetchSkillList`: load and verify the cache; when a
valid envelope with a non-empty list and a validator token exists, issue the
conditional check and short-circuit on `notModified`; otherwise run the live
fetch with cache fallback. -/
def fetchSkillList (env : FetchEnv) : FetchTrace :=
  if ((loadFromCache env.storedCache env.now).isValid
      && !(loadFromCache env.storedCache env.now).skills.isEmpty
      && (loadFromCache env.storedCache env.now).etag.isSome) then
    if (checkCacheValidity env.sourceResults.length env.reval).1 then
      ⟨⟨(loadFromCache env.storedCache env.now).skills, false, true⟩, false,
        env.storedCache⟩
    else fetchLive env (loadFromCache env.storedCache env.now)
  else fetchLive env (loadFromCache env.storedCache env.now)

/-- The condition under which `fetchSkillList` returns the cached list without
running the live fetch. -/
def revalShortCircuits (env : FetchEnv) : Bool :=
  ((loadFromCache env.storedCache env.now).isValid
      && !(loadFromCache env.storedCache env.now).skills.isEmpty
      && (loadFromCache env.storedCache env.now).etag.isSome)
    && (checkCacheValidity env.sourceResults.length env.reval).1

theorem fetchSkillList_eq_fetchLive (env : FetchEnv)
    (h : revalShortCircuits env = false) :
    fetchSkillList env = fetchLive env (loadFromCache env.storedCache env.now) := by
  unfold revalShortCircuits at h
  unfold fetchSkillList
  rcases Bool.and_eq_false_iff.mp h with h1 | h1
  · rw [if_neg (by simp [h1])]
  · rw [h1]
    split <;> rfl

/-- Loading a fresh, integrity-passing envelope yields its list and token,
marked valid. -/
theorem loadFromCache_fresh (c : SkillCache) (now : Nat)
    (hhash : c.contentHash = some (computeContentHash c.skills))
    (hfresh : now - c.last_update ≤ cacheTtlMs) :
    loadFromCache (some c) now
      = { skills := c.skills, etag := c.etag, isValid := true } := by
  have hexp : ¬now - c.last_update > cacheTtlMs := by omega
  simp [loadFromCache, hhash, hexp]

/-- C6: conditional-revalidation short-circuit.  With a stored envelope that
passes the integrity check, is within the freshness window, holds a non-empty
skill list and a validator token, an HTTP 304 outcome of the conditional check
makes `fetchSkillList` return exactly the cached list with the degraded flag
`false`, without invoking any per-source fetcher and leaving the stored
envelope untouched. -/
theorem fetchSkillList_notModified_shortCircuit (env : FetchEnv) (c : SkillCache)
    (hc : env.storedCache = some c)
    (hhash : c.contentHash = some (computeContentHash c.skills))
    (hfresh : env.now - c.last_update ≤ cacheTtlMs)
    (hne : c.skills ≠ [])
    (e : List Char) (hetag : c.etag = some e)
    (hsrc : env.sourceResults ≠ [])
    (h304 : env.reval = RevalOutcome.status304) :
    fetchSkillList env
      = ⟨⟨c.skills, false, true⟩, false, env.storedCache⟩ := by
  have hload := loadFromCache_fresh c env.now hhash hfresh
  have hlen : env.sourceResults.length ≠ 0 := by
    simpa [List.length_eq_zero] using hsrc
  have hempty : c.skills.isEmpty = false := by
    cases h : c.skills
    · exact absurd h hne
    · rfl
  unfold fetchSkillList
  rw [hc, hload]
  simp [hempty, hetag, checkCacheValidity, hlen, h304]

/-- A stored envelope used by the concrete revalidation scenarios: fresh,
integrity-passing, non-empty, with a validator token. -/
def revalCache : SkillCache :=
  { last_update := 0
    etag := some ['e']
    contentHash := some (computeContentHash [sampleSkill])
    skills := [sampleSkill] }

/-- Witness for C6: one configured source, a 304 outcome. -/
theorem fetchSkillList_notModified_shortCircuit_witness :
    fetchSkillList
        { storedCache := some revalCache, now := 5,
          reval := RevalOutcome.status304, sourceResults := [some []],
          repoEtag := none }
      = ⟨⟨[sampleSkill], false, true⟩, false, some revalCache⟩ :=
  fetchSkillList_notModified_shortCircuit
    { storedCache := some revalCache, now := 5,
      reval := RevalOutcome.status304, sourceResults := [some []],
      repoEtag := none }
    revalCache rfl rfl (by decide) (by decide) ['e'] rfl (by decide) rfl

/-- The C2 scenario: a fresh valid cached envelope with a validator token, a
network error on the conditional revalidation request, and a single source
whose live fetch also fails. -/
def revalErrEnv : FetchEnv :=
  { storedCache := some revalCache
    now := 5
    reval := RevalOutcome.netError
    sourceResults := [none]
    repoEtag := none }

/-- C2 counterexample: on a revalidation network error the code does NOT skip
the per-source refetch — `sourcesInvoked` is `true` (the full live fan-out
runs and only its failure falls back to the cached list), refuting the claim
that no forced full per-source refetch is performed. -/
theorem fetchSkillList_revalError_counterexample :
    fetchSkillList revalErrEnv
        = ⟨⟨[sampleSkill], true, true⟩, true, some revalCache⟩ ∧
    ¬(fetchSkillList revalErrEnv).sourcesInvoked = false := by
  constructor
  · rfl
  · decide

/-- C2 amended: with a valid (integrity-passing, non-expired) cached envelope
holding a validator token, a network error on the conditional revalidation
request makes `fetchSkillList` fall through to a full per-source refetch; when
every source then fails or yields nothing, the stale-but-valid cached list is
returned with the degraded flag set (and the stored envelope untouched). -/
theorem fetchSkillList_revalError_refetch (env : FetchEnv) (c : SkillCache)
    (hc : env.storedCache = some c)
    (hhash : c.contentHash = some (computeContentHash c.skills))
    (hfresh : env.now - c.last_update ≤ cacheTtlMs)
    (hne : c.skills ≠ [])
    (e : List Char) (_hetag : c.etag = some e)
    (hrev : env.reval = RevalOutcome.netError)
    (hfail : liveSkills env = []) :
    fetchSkillList env = ⟨⟨c.skills, true, true⟩, true, env.storedCache⟩ := by
  have hload := loadFromCache_fresh c env.now hhash hfresh
  have hempty : c.skills.isEmpty = false := by
    cases h : c.skills
    · exact absurd h hne
    · rfl
  have hshort : revalShortCircuits env = false := by
    unfold revalShortCircuits
    simp [checkCacheValidity, hrev]
  rw [fetchSkillList_eq_fetchLive env hshort, hc, hload]
  unfold fetchLive
  simp [hfail, hempty, hc]

/-- Witness for C2's amended theorem at the concrete scenario. -/
theorem fetchSkillList_revalError_refetch_witness :
    fetchSkillList revalErrEnv
      = ⟨⟨[sampleSkill], true, true⟩, true, some revalCache⟩ :=
  fetchSkillList_revalError_refetch revalErrEnv revalCache rfl rfl
    (by decide) (by decide) ['e'] rfl rfl (by decide)

/-- C5: fallback ordering.  In any run that reaches the live fetch
(`revalShortCircuits` is false) and in which the live fetch yields nothing
(every source failed or returned an empty list), the result is the previously
loaded cached list — whether fresh or expired — with the degraded flag set;
with no usable cache, it is the empty list with the degraded flag set. -/
theorem fetchSkillList_fallback_ordering (env : FetchEnv)
    (hlive : liveSkills env = [])
    (hrun : revalShortCircuits env = false) :
    ((loadFromCache env.storedCache env.now).skills ≠ [] →
      (fetchSkillList env).result
        = ⟨(loadFromCache env.storedCache env.now).skills, true, true⟩) ∧
    ((loadFromCache env.storedCache env.now).skills = [] →
      (fetchSkillList env).result = ⟨[], true, false⟩) ∧
    (fetchSkillList env).sourcesInvoked = true := by
  rw [fetchSkillList_eq_fetchLive env hrun]
  unfold fetchLive
  refine ⟨fun hne => ?_, fun hnil => ?_, ?_⟩
  · have hempty : (loadFromCache env.storedCache env.now).skills.isEmpty = false := by
      cases h : (loadFromCache env.storedCache env.now).skills
      · exact absurd h hne
      · rfl
    simp [hlive, hempty]
  · simp [hlive, hnil]
  · simp [hlive]
    split <;> rfl

/-- The C5 scenario: no cache on disk and a single failing source. -/
def fallbackEnv : FetchEnv :=
  { storedCache := none
    now := 0
    reval := RevalOutcome.netError
    sourceResults := [none]
    repoEtag := none }

/-- Witness for C5: no cache at all and a failed live fetch give the empty
degraded result. -/
theorem fetchSkillList_fallback_ordering_witness :
    liveSkills fallbackEnv = [] ∧ revalShortCircuits fallbackEnv = false ∧
    (fetchSkillList fallbackEnv).result = ⟨[], true, false⟩ :=
  ⟨by decide, by decide,
    (fetchSkillList_fallback_ordering fallbackEnv (by decide) (by decide)).2.1
      (by decide)⟩

/-! ### `SkillInstaller.installSkill` (atomic install with rollback)

The backing directory (`actualDir`) is modelled as explicit state: whether the
directory exists, which files have been downloaded into it and whether the
`.metadata.json` record has been written.  I/O outcomes (the remote file
listing, each sequential download, the metadata write) are parameters in
`InstallEnv`.  Deletion (`fs.rmSync` in the catch block) is modelled as
succeeding; git initialization and junction creation catch their own errors in
the source and never fail the install, so they do not affect this state. -/

/-- `models/SkillMetadata`: the persisted per-install record (with the
optional `junctionPath` and `isLocalModified` fields used by the installer
and by `checkUpdates`). -/
structure SkillMetadata where
  skillId : List Char
  installedVersion : List Char
  installedAt : Nat
  source : List Char
  repoOwner : List Char
  repoName : List Char
  skillPath : List Char
  branch : List Char
  junctionPath : Option (List Char)
  isLocalModified : Option Bool
deriving DecidableEq

/-- `SkillInstaller.saveMetadata`: the record written to `.metadata.json`
on install (`junctionPath` present exactly in dual-location mode). -/
def saveMetadata (skill : Skill) (now : Nat) (junctionDir : Option (List Char)) :
    SkillMetadata :=
  { skillId := skill.id
    installedVersion := jsOr skill.commitSha ['u', 'n', 'k', 'n', 'o', 'w', 'n']
    installedAt := now
    source := jsOr skill.source []
    repoOwner := jsOr skill.repoOwner []
    repoName := jsOr skill.repoName []
    skillPath := jsOr skill.skillPath []
    branch := jsOr skill.branch ['m', 'a', 'i', 'n']
    junctionPath := junctionDir
    isLocalModified := none }

/-- State of the backing directory (`actualDir`). -/
structure BackingDir where
  present : Bool
  files : List (List Char)
  metadataSaved : Option SkillMetadata
deriving DecidableEq

/-- The state of a backing directory that does not exist. -/
def emptyBackingDir : BackingDir :=
  { present := false, files := [], metadataSaved := none }

/-- The catch-block rollback of `installSkill`: `fs.rmSync(actualDir,
{recursive: true, force: true})` guarded by `fs.existsSync(actualDir)`. -/
def rollbackDir (d : BackingDir) : BackingDir :=
  if d.present then emptyBackingDir else d

/-- I/O outcomes of one `installSkill` run: the remote file listing
(`fetchSkillFiles`; `none` when it rejects), the success of each sequential
`downloadFile` call (by index), the success of the `.metadata.json` write, the
clock, and the junction path in dual-location (`storagePath`) mode. -/
structure InstallEnv where
  listing : Option (List (List Char))
  downloadOk : Nat → Bool
  metadataWriteOk : Bool
  now : Nat
  junctionDir : Option (List Char)

/-- The sequential download loop of `installSkill` step 3: downloads files one
by one, stopping at the first failure (fail-fast; remaining downloads are
never started). -/
def downloadLoop (ok : Nat → Bool) (files : List (List Char)) (i : Nat)
    (d : BackingDir) : Bool × BackingDir :=
  match files with
  | [] => (true, d)
  | f :: rest =>
    if ok i then downloadLoop ok rest (i + 1) { d with files := d.files ++ [f] }
    else (false, d)

/-- `SkillInstaller.installSkill` over the backing-directory state:
provenance precondition, remote listing, directory creation, sequential
downloads, metadata persistence; any error raised inside the pipeline is
caught and rolls the backing directory back before reporting failure.  Git
initialization and junction creation follow but swallow their own failures
and leave this state unchanged. -/
def installSkill (env : InstallEnv) (skill : Skill) (init : BackingDir) :
    Bool × BackingDir :=
  if !(truthy skill.repoOwner && truthy skill.repoName && truthy skill.skillPath) then
    (false, init)
  else
    match env.listing with
    | none => (false, rollbackDir init)
    | some files =>
      if files.isEmpty then (false, rollbackDir init)
      else
        match downloadLoop env.downloadOk files 0 { init with present := true } with
        | (false, d) => (false, rollbackDir d)
        | (true, d) =>
          if env.metadataWriteOk then
            let meta := saveMetadata skill env.now env.junctionDir
            (true, { d with metadataSaved := some meta })
          else (false, rollbackDir d)

theorem downloadLoop_present (ok : Nat → Bool) (files : List (List Char))
    (i : Nat) (d : BackingDir) :
    (downloadLoop ok files i d).2.present = d.present := by
  induction files generalizing i d with
  | nil => rfl
  | cons f rest ih =>
    unfold downloadLoop
    by_cases h : ok i
    · simp only [h, if_true]
      exact ih (i + 1) _
    · simp [h]

/-- C1: install atomicity.  For a skill record with full provenance, whenever
`installSkill` starting from a non-existent backing directory reports failure
— the remote listing rejected or was empty, a file download failed partway, or
the metadata write failed — the final state is again the non-existent backing
directory: no directory, no downloaded files and no persisted metadata
record. -/
theorem installSkill_rollback (env : InstallEnv) (skill : Skill)
    (hprov : (truthy skill.repoOwner && truthy skill.repoName
      && truthy skill.skillPath) = true)
    (hfail : (installSkill env skill emptyBackingDir).1 = false) :
    (installSkill env skill emptyBackingDir).2 = emptyBackingDir := by
  unfold installSkill at *
  rw [hprov] at hfail ⊢
  simp only [Bool.not_true, Bool.false_eq_true, if_false] at hfail ⊢
  match hl : env.listing with
  | none => simp [rollbackDir, emptyBackingDir]
  | some files =>
    rw [hl] at hfail
    by_cases hemp : files.isEmpty
    · simp [hemp, rollbackDir, emptyBackingDir]
    · simp only [hemp, if_false, Bool.false_eq_true] at hfail ⊢
      match hdl : downloadLoop env.downloadOk files 0
          { emptyBackingDir with present := true } with
      | (false, d) =>
        have hp : d.present = true := by
          have := downloadLoop_present env.downloadOk files 0
            { emptyBackingDir with present := true }
          rw [hdl] at this
          exact this
        simp [rollbackDir, hp]
      | (true, d) =>
        rw [hdl] at hfail
        have hp : d.present = true := by
          have := downloadLoop_present env.downloadOk files 0
            { emptyBackingDir with present := true }
          rw [hdl] at this
          exact this
        by_cases hmw : env.metadataWriteOk
        · simp [hmw] at hfail
        · simp [hmw, rollbackDir, hp]

/-- Witness for C1: a two-file install whose second download fails ends with
no backing directory and no metadata. -/
theorem installSkill_rollback_witness :
    (installSkill
        { listing := some [['a'], ['b']], downloadOk := fun i => i == 0,
          metadataWriteOk := true, now := 0, junctionDir := none }
        sampleSkill emptyBackingDir).2 = emptyBackingDir :=
  installSkill_rollback
    { listing := some [['a'], ['b']], downloadOk := fun i => i == 0,
      metadataWriteOk := true, now := 0, junctionDir := none }
    sampleSkill (by decide) (by decide)

/-! ### `SkillInstaller.checkUpdates` (update detection, legacy handling)

The install directory is modelled as a list of directory entries, each
carrying the parse result of its `.metadata.json` (`none` when the file is
missing, as `readMetadata` returns `null`).  `checkUpdates` scans the entries,
synthesizes and persists a legacy metadata record where none exists, skips
locally-modified packages, and builds a JS `Map` from skill id to update
info (`Map.set` overwrites an existing key in place). -/

/-- The `'legacy'` placeholder revision marker. -/
def legacyMark : List Char := ['l', 'e', 'g', 'a', 'c', 'y']

/-- `SkillInstaller.generateLegacyMetadata`: the record synthesized for a
package installed before metadata existed (`installedVersion = 'legacy'`,
source from `skillId.split(':')[0] || 'unknown'`). -/
def generateLegacyMetadata (skillId : List Char) (now : Nat) : SkillMetadata :=
  { skillId := skillId
    installedVersion := legacyMark
    installedAt := now
    source :=
      if (skillId.takeWhile (fun c => c != ':')).isEmpty then
        ['u', 'n', 'k', 'n', 'o', 'w', 'n']
      else skillId.takeWhile (fun c => c != ':')
    repoOwner := []
    repoName := []
    skillPath := []
    branch := ['m', 'a', 'i', 'n']
    junctionPath := none
    isLocalModified := none }

/-- One entry of the install directory scan (`fs.readdirSync` with file
types), together with the parse result of its `.metadata.json`. -/
structure DirEntry where
  name : List Char
  isDirectory : Bool
  metadata : Option SkillMetadata
deriving DecidableEq

/-- One value of the map returned by `checkUpdates`. -/
structure UpdateInfo where
  hasUpdate : Bool
  installedVersion : List Char
  latestVersion : List Char
deriving DecidableEq

/-- The `hasUpdate` computation of `checkUpdates`: the installed revision
differs from the latest one and is not the `'legacy'` placeholder. -/
def computeHasUpdate (installedVersion sha : List Char) : Bool :=
  installedVersion != sha && installedVersion != legacyMark

/-- The body of the `checkUpdates` loop for one directory entry: returns the
entry as left on disk (legacy metadata persisted when none existed) and the
map entry contributed, if any (skipped for non-directories, locally-modified
packages, packages absent from the live list and packages without a latest
revision marker). -/
def processEntry (allSkills : List Skill) (now : Nat) (e : DirEntry) :
    DirEntry × Option (List Char × UpdateInfo) :=
  if !e.isDirectory then (e, none)
  else
    let meta :=
      match e.metadata with
      | some m => m
      | none => generateLegacyMetadata (getSkillIdFromDirName e.name) now
    let e' := { e with metadata := some meta }
    if meta.isLocalModified = some true then (e', none)
    else
      match allSkills.find? (fun s => s.id == meta.skillId) with
      | some latest =>
        match latest.commitSha with
        | some sha =>
          if sha.isEmpty then (e', none)
          else
            (e', some (meta.skillId,
              ⟨computeHasUpdate meta.installedVersion sha,
                meta.installedVersion, sha⟩))
        | none => (e', none)
      | none => (e', none)

/-- JS `Map.set`: overwrite the value of an existing key in place, else
append. -/
def mapSet (m : List (List Char × UpdateInfo)) (k : List Char) (v : UpdateInfo) :
    List (List Char × UpdateInfo) :=
  match m with
  | [] => [(k, v)]
  | (k', v') :: rest =>
    if k' = k then (k, v) :: rest else (k', v') :: mapSet rest k v

/-- JS `Map.get`. -/
def mapGet (m : List (List Char × UpdateInfo)) (k : List Char) :
    Option UpdateInfo :=
  match m with
  | [] => none
  | (k', v') :: rest => if k' = k then some v' else mapGet rest k

/-- Fold one optional map contribution into the accumulated map
(`updateMap.set(...)` guarded by the skip conditions). -/
def updAcc (acc : List (List Char × UpdateInfo)) :
    Option (List Char × UpdateInfo) → List (List Char × UpdateInfo)
  | some (k, v) => mapSet acc k v
  | none => acc

/-- The `checkUpdates` scan loop over the remaining entries, with the map
accumulated so far: each entry is processed in order, its persisted form
collected and its map contribution folded in. -/
def checkUpdatesGo (allSkills : List Skill) (now : Nat) :
    List DirEntry → List (List Char × UpdateInfo) →
      List DirEntry × List (List Char × UpdateInfo)
  | [], acc => ([], acc)
  | e :: rest, acc =>
    ((processEntry allSkills now e).1 ::
        (checkUpdatesGo allSkills now rest
          (updAcc acc (processEntry allSkills now e).2)).1,
      (checkUpdatesGo allSkills now rest
        (updAcc acc (processEntry allSkills now e).2)).2)

/-- `SkillInstaller.checkUpdates`: scan the install directory and return the
entries as left on disk together with the id-to-update-info map. -/
def checkUpdates (allSkills : List Skill) (now : Nat) (entries : List DirEntry) :
    List DirEntry × List (List Char × UpdateInfo) :=
  checkUpdatesGo allSkills now entries []

theorem mapGet_mapSet_self (m : List (List Char × UpdateInfo)) (k : List Char)
    (v : UpdateInfo) : mapGet (mapSet m k v) k = some v := by
  induction m with
  | nil => simp [mapSet, mapGet]
  | cons p rest ih =>
    obtain ⟨k', v'⟩ := p
    by_cases h : k' = k <;> simp [mapSet, mapGet, h, ih]

theorem mapGet_mapSet_ne (m : List (List Char × UpdateInfo))
    {k' k : List Char} (v : UpdateInfo) (h : k' ≠ k) :
    mapGet (mapSet m k' v) k = mapGet m k := by
  induction m with
  | nil => simp [mapSet, mapGet, h]
  | cons p rest ih =>
    obtain ⟨k1, v1⟩ := p
    by_cases h1 : k1 = k'
    · subst h1
      simp [mapSet, mapGet, h]
    · by_cases h2 : k1 = k <;> simp [mapSet, mapGet, h1, h2, ih, Ne.symm h]

theorem checkUpdatesGo_fst (allSkills : List Skill) (now : Nat)
    (entries : List DirEntry) (acc : List (List Char × UpdateInfo)) :
    (checkUpdatesGo allSkills now entries acc).1
      = entries.map (fun e => (processEntry allSkills now e).1) := by
  induction entries generalizing acc with
  | nil => rfl
  | cons e rest ih =>
    unfold checkUpdatesGo
    simp [ih]

theorem checkUpdatesGo_snd (allSkills : List Skill) (now : Nat)
    (entries : List DirEntry) (acc : List (List Char × UpdateInfo)) :
    (checkUpdatesGo allSkills now entries acc).2
      = (entries.filterMap (fun e => (processEntry allSkills now e).2)).foldl
          (fun m p => mapSet m p.1 p.2) acc := by
  induction entries generalizing acc with
  | nil => rfl
  | cons e rest ih =>
    unfold checkUpdatesGo
    cases h : (processEntry allSkills now e).2 with
    | none => simp [h, List.filterMap_cons, updAcc, ih]
    | some p =>
      obtain ⟨k, v⟩ := p
      simp [h, List.filterMap_cons, updAcc, ih]

theorem foldl_mapSet_get (k : List Char) (v : UpdateInfo) :
    ∀ (us acc : List (List Char × UpdateInfo)),
      ((k, v) ∈ us ∨ mapGet acc k = some v) →
      (∀ p ∈ us, p.1 = k → p.2 = v) →
      mapGet (us.foldl (fun m p => mapSet m p.1 p.2) acc) k = some v := by
  intro us
  induction us with
  | nil =>
    intro acc hin _
    simpa using hin.resolve_left (by simp)
  | cons p rest ih =>
    intro acc hin huniq
    obtain ⟨k1, v1⟩ := p
    simp only [List.foldl_cons]
    by_cases hk : k1 = k
    · subst hk
      have hv : v1 = v := huniq (k1, v1) (List.mem_cons_self _ _) rfl
      subst hv
      refine ih (mapSet acc k1 v1) (Or.inr (mapGet_mapSet_self acc k1 v1)) ?_
      intro q hq hqk
      exact huniq q (List.mem_cons_of_mem _ hq) hqk
    · refine ih (mapSet acc k1 v1) ?_ ?_
      · rcases hin with hin | hin
        · rcases List.mem_cons.mp hin with heq | hmem
          · exact absurd (congrArg Prod.fst heq.symm) hk
          · exact Or.inl hmem
        · exact Or.inr ((mapGet_mapSet_ne acc v1 hk).trans hin)
      · intro q hq hqk
        exact huniq q (List.mem_cons_of_mem _ hq) hqk

/-- A directory entry as left on disk after `checkUpdates` synthesized and
persisted the legacy metadata record for it. -/
def legacyStamped (e : DirEntry) (now : Nat) : DirEntry :=
  { e with metadata := some (generateLegacyMetadata (getSkillIdFromDirName e.name) now) }

/-- `processEntry` on a directory entry with no metadata whose id is found in
the live list with a non-empty latest revision: the legacy record is
persisted and the contributed map entry has `hasUpdate = false`. -/
theorem processEntry_no_metadata (allSkills : List Skill) (now : Nat)
    (e : DirEntry) (hdir : e.isDirectory = true) (hmeta : e.metadata = none)
    (latest : Skill) (sha : List Char)
    (hfind : allSkills.find?
        (fun s => s.id == getSkillIdFromDirName e.name) = some latest)
    (hsha : latest.commitSha = some sha) (hshane : sha ≠ []) :
    processEntry allSkills now e
      = (legacyStamped e now,
          some (getSkillIdFromDirName e.name, ⟨false, legacyMark, sha⟩)) := by
  have hempty : sha.isEmpty = false := by
    cases h : sha
    · exact absurd h hshane
    · rfl
  have hhu : computeHasUpdate legacyMark sha = false := by
    simp [computeHasUpdate]
  unfold processEntry legacyStamped
  simp only [hdir, hmeta, Bool.not_true, Bool.false_eq_true, if_false]
  simp [generateLegacyMetadata, hfind, hsha, hempty, hhu]

/-- C7: update-detection legacy handling.  An installed directory entry with
no metadata file gets a synthesized legacy record persisted
(`installedVersion = 'legacy'`) and, whatever the latest known revision `sha`
in the live list, its map entry reports `hasUpdate = false`; and in general
`hasUpdate` is `false` exactly when the installed revision equals the latest
one or equals the `'legacy'` placeholder. -/
theorem checkUpdates_legacy (allSkills : List Skill) (now : Nat)
    (entries : List DirEntry) (e : DirEntry) (hmem : e ∈ entries)
    (hdir : e.isDirectory = true) (hmeta : e.metadata = none)
    (latest : Skill) (sha : List Char)
    (hfind : allSkills.find?
        (fun s => s.id == getSkillIdFromDirName e.name) = some latest)
    (hsha : latest.commitSha = some sha) (hshane : sha ≠ [])
    (huniq : ∀ e' ∈ entries, e' ≠ e →
      ∀ p : List Char × UpdateInfo,
        (processEntry allSkills now e').2 = some p →
        p.1 ≠ getSkillIdFromDirName e.name) :
    mapGet (checkUpdates allSkills now entries).2 (getSkillIdFromDirName e.name)
        = some ⟨false, legacyMark, sha⟩ ∧
    legacyStamped e now ∈ (checkUpdates allSkills now entries).1 ∧
    (∀ iv s : List Char, computeHasUpdate iv s = false ↔ (iv = s ∨ iv = legacyMark)) := by
  have hpe := processEntry_no_metadata allSkills now e hdir hmeta latest sha
    hfind hsha hshane
  refine ⟨?_, ?_, ?_⟩
  · unfold checkUpdates
    rw [checkUpdatesGo_snd]
    apply foldl_mapSet_get
    · left
      rw [List.mem_filterMap]
      exact ⟨e, hmem, by rw [hpe]⟩
    · intro p hp hpk
      rw [List.mem_filterMap] at hp
      obtain ⟨e', hmem', hpe'⟩ := hp
      by_cases heq : e' = e
      · subst heq
        rw [hpe] at hpe'
        cases hpe'
        rfl
      · exact absurd hpk (huniq e' hmem' heq p hpe')
  · unfold checkUpdates
    rw [checkUpdatesGo_fst]
    have hst : legacyStamped e now = (processEntry allSkills now e).1 := by
      rw [hpe]
    rw [hst]
    exact List.mem_map_of_mem _ hmem
  · intro iv s
    constructor
    · intro h
      by_cases h1 : iv = s
      · exact Or.inl h1
      · right
        unfold computeHasUpdate at h
        rcases Bool.and_eq_false_iff.mp h with h2 | h2
        · exact absurd (by simpa using h2) h1
        · simpa using h2
    · intro h
      unfold computeHasUpdate
      rcases h with h | h <;> simp [h]

/-- The concrete C7 scenario: one installed directory `a--f` with no metadata
file, and a live list containing the matching skill `a:f` with latest
revision `123`. -/
def legacyEntry : DirEntry :=
  { name := ['a', '-', '-', 'f'], isDirectory := true, metadata := none }

/-- Witness for C7 at the concrete scenario: the map entry reports
`hasUpdate = false` with installed version `'legacy'`. -/
theorem checkUpdates_legacy_witness :
    mapGet (checkUpdates [sampleSkill] 7 [legacyEntry]).2
        (getSkillIdFromDirName legacyEntry.name)
      = some ⟨false, legacyMark, ['1', '2', '3']⟩ :=
  (checkUpdates_legacy [sampleSkill] 7 [legacyEntry] legacyEntry
    (List.mem_singleton.mpr rfl) rfl rfl sampleSkill ['1', '2', '3']
    (by decide) rfl (by decide)
    (fun e' he' hne => absurd (List.mem_singleton.mp he') hne)).1

/-! ### `SkillInstaller.removeJunction` (link-removal safety)

The filesystem is an association list from paths to nodes: a real directory
(with its entry names) or a symbolic link / junction.  `existsSync` follows
links (one level — the model has no link chains); `lstatSync` does not. -/

inductive FsNode
  | dir (entries : List (List Char))
  | link (target : List Char)
deriving DecidableEq

def fsLookup (fs : List (List Char × FsNode)) (p : List Char) : Option FsNode :=
  match fs with
  | [] => none
  | (q, n) :: rest => if q = p then some n else fsLookup rest p

/-- `fs.existsSync`: follows a link, so a dangling link reports `false`. -/
def existsSync (fs : List (List Char × FsNode)) (p : List Char) : Bool :=
  match fsLookup fs p with
  | none => false
  | some (.dir _) => true
  | some (.link t) =>
    match fsLookup fs t with
    | some (.dir _) => true
    | _ => false

/-- `SkillInstaller.isJunction`: `fs.lstatSync(path).isSymbolicLink()`, with
`false` when `lstat` throws (missing path). -/
def isJunction (fs : List (List Char × FsNode)) (p : List Char) : Bool :=
  match fsLookup fs p with
  | some (.link _) => true
  | _ => false

/-- Removing one path entry (`rmdir` on a junction / `unlinkSync` on a
symlink: the link itself goes away, its target is untouched). -/
def fsRemove (fs : List (List Char × FsNode)) (p : List Char) :
    List (List Char × FsNode) :=
  fs.filter (fun q => !(q.1 == p))

/-- `SkillInstaller.removeJunction`: success without touching anything when
the path does not exist; refusal (`false`, nothing touched) when the path
exists but is not a link; otherwise removal of the link entry only. -/
def removeJunction (fs : List (List Char × FsNode)) (p : List Char) :
    Bool × List (List Char × FsNode) :=
  if !existsSync fs p then (true, fs)
  else if !isJunction fs p then (false, fs)
  else (true, fsRemove fs p)

/-- C9: link-removal safety.  On an existing path that is a plain directory —
not a directory link — `removeJunction` returns `false` and leaves the whole
filesystem, in particular that directory and its contents, unchanged. -/
theorem removeJunction_plain_dir (fs : List (List Char × FsNode))
    (p : List Char) (entries : List (List Char))
    (h : fsLookup fs p = some (FsNode.dir entries)) :
    removeJunction fs p = (false, fs) := by
  simp [removeJunction, existsSync, isJunction, h]

/-- Witness for C9: a one-entry filesystem holding a plain directory. -/
theorem removeJunction_plain_dir_witness :
    removeJunction [(['d'], FsNode.dir [['x']])] ['d']
      = (false, [(['d'], FsNode.dir [['x']])]) :=
  removeJunction_plain_dir [(['d'], FsNode.dir [['x']])] ['d'] [['x']] rfl

/-! ### `GenericSkillSource.parseSkillMd` (front-matter parser)

The front-matter regex `^---\s*\n([\s\S]*?)\n---` is modelled with its
backtracking semantics: after a leading `---`, the greedy `\s*\n` tries the
longest whitespace prefix ending at a newline first, and for each such prefix
the lazy group captures up to the first following `\n---`.  The per-line regex
`^(\w+):\s*(.+)$` matches when a non-empty word-character key is followed by
`:` and at least one further character; the captured value, after `trim()`,
equals the trimmed remainder of the line.  All functions are total: parsing
cannot throw. -/

/-- The JS `\s` character class (whitespace, ASCII and Unicode). -/
def isJsWhitespace (c : Char) : Bool :=
  c = ' ' || c = '\t' || c = '\n' || c = '\r'
    || c = Char.ofNat 11 || c = Char.ofNat 12
    || c.val = 0xa0 || c.val = 0x1680
    || (0x2000 ≤ c.val && c.val ≤ 0x200a)
    || c.val = 0x2028 || c.val = 0x2029 || c.val = 0x202f
    || c.val = 0x205f || c.val = 0x3000 || c.val = 0xfeff

/-- The JS `\w` character class. -/
def isWordChar (c : Char) : Bool :=
  ('a' ≤ c && c ≤ 'z') || ('A' ≤ c && c ≤ 'Z') || ('0' ≤ c && c ≤ '9')
    || c = '_'

/-- A single or double quote character. -/
def isQuote (c : Char) : Bool :=
  c = '"' || c = Char.ofNat 39

/-- Split at the first occurrence of `\n---`: the part before it and the part
after it (the lazy `([\s\S]*?)\n---` capture). -/
def splitAtNlDashes : List Char → Option (List Char × List Char)
  | '\n' :: '-' :: '-' :: '-' :: rest => some ([], rest)
  | c :: rest =>
    match splitAtNlDashes rest with
    | some (b, a) => some (c :: b, a)
    | none => none
  | [] => none

/-- The candidate positions for the `\s*\n` of the front-matter regex: tails
obtained by consuming a whitespace-only prefix ending with a newline, in
order of increasing consumed prefix. -/
def candidateTails : List Char → List (List Char)
  | [] => []
  | c :: rest =>
    if isJsWhitespace c then
      (if c = '\n' then [rest] else []) ++ candidateTails rest
    else []

/-- Try the candidate tails in the given order and capture up to the first
`\n---` in the first tail that has one. -/
def firstFrontMatter : List (List Char) → Option (List Char)
  | [] => none
  | t :: ts =>
    match splitAtNlDashes t with
    | some (b, _) => some b
    | none => firstFrontMatter ts

/-- `content.match` against the regex `^---\s*\n([\s\S]*?)\n---`: the
captured YAML block, or `none` when the text does not begin with a delimited
front-matter block.  Greedy `\s*` means the longest whitespace prefix is
tried first, hence the reversal of the candidate list. -/
def matchFrontMatter (content : List Char) : Option (List Char) :=
  match content with
  | '-' :: '-' :: '-' :: rest => firstFrontMatter (candidateTails rest).reverse
  | _ => none

/-- JS `String.split('\n')`. -/
def splitOnNl : List Char → List (List Char)
  | [] => [[]]
  | c :: rest =>
    if c = '\n' then [] :: splitOnNl rest
    else
      match splitOnNl rest with
      | l :: ls => (c :: l) :: ls
      | [] => [[c]]

/-- JS `String.trim()`. -/
def jsTrim (l : List Char) : List Char :=
  ((l.dropWhile isJsWhitespace).reverse.dropWhile isJsWhitespace).reverse

/-- The JS global replacement of a leading or trailing quote character by the
empty string: drop one leading and one trailing quote, if present. -/
def stripQuotes (l : List Char) : List Char :=
  let l1 :=
    match l with
    | c :: rest => if isQuote c then rest else l
    | [] => []
  match l1.reverse with
  | c :: rrest => if isQuote c then rrest.reverse else l1
  | [] => []

/-- `line.match(/^(\w+):\s*(.+)$/)`: the key and the trimmed value (the
source trims the captured value before stripping quotes; the capture matches
exactly when something follows the colon). -/
def parseLine (line : List Char) : Option (List Char × List Char) :=
  match line.span isWordChar with
  | (key, rest) =>
    match rest with
    | ':' :: after =>
      if key.isEmpty then none
      else if after.isEmpty then none
      else some (key, jsTrim after)
    | _ => none

def nameKey : List Char := ['n', 'a', 'm', 'e']
def descriptionKey : List Char :=
  ['d', 'e', 's', 'c', 'r', 'i', 'p', 't', 'i', 'o', 'n']
def categoryKey : List Char := ['c', 'a', 't', 'e', 'g', 'o', 'r', 'y']
def licenseKey : List Char := ['l', 'i', 'c', 'e', 'n', 's', 'e']

/-- The result record of `parseSkillMd` (all four recognized keys optional). -/
structure SkillMdResult where
  name : Option (List Char)
  description : Option (List Char)
  category : Option (List Char)
  license : Option (List Char)
deriving DecidableEq

/-- The empty result object `{}`. -/
def emptySkillMdResult : SkillMdResult :=
  { name := none, description := none, category := none, license := none }

/-- The body of the per-line loop of `parseSkillMd`: assign the quote-stripped
value to the matching recognized key (four independent `if`s in the source);
lines that do not match the regex and lines with unrecognized keys leave the
result unchanged. -/
def processLine (r : SkillMdResult) (line : List Char) : SkillMdResult :=
  match parseLine line with
  | none => r
  | some (key, value) =>
    let cv := stripQuotes value
    let r1 := if key = nameKey then { r with name := some cv } else r
    let r2 := if key = descriptionKey then { r1 with description := some cv } else r1
    let r3 := if key = categoryKey then { r2 with category := some cv } else r2
    if key = licenseKey then { r3 with license := some cv } else r3

/-- `GenericSkillSource.parseSkillMd`: extract the front-matter block and fold
the line parser over its lines; the empty result when no block is found. -/
def parseSkillMd (content : List Char) : SkillMdResult :=
  match matchFrontMatter content with
  | none => emptySkillMdResult
  | some yaml => (splitOnNl yaml).foldl processLine emptySkillMdResult

/-- `models/ClaudeSkill`: the per-package record assembled by
`fetchSkillMetadata` (the derived display URLs are omitted: they are string
concatenations of configuration values used nowhere in the claims). -/
structure ClaudeSkill where
  id : List Char
  name : List Char
  description : List Char
  category : Option (List Char)
  license : Option (List Char)
deriving DecidableEq

/-- `GenericSkillSource.fetchSkillMetadata` after the content fetch:
`none` when the fetch rejected (the source catches and returns `null`) or
when the parsed metadata lacks a truthy `name` or `description`. -/
def fetchSkillMetadata (skillId : List Char) (content : Option (List Char)) :
    Option ClaudeSkill :=
  match content with
  | none => none
  | some text =>
    match (parseSkillMd text).name, (parseSkillMd text).description with
    | some n, some d =>
      if n.isEmpty || d.isEmpty then none
      else
        some { id := skillId, name := n, description := d,
               category := (parseSkillMd text).category,
               license := (parseSkillMd text).license }
    | some _, none => none
    | none, _ => none

/-- The C8 counterexample input: a well-formed front-matter block whose only
recognized key is `category` — the required keys are absent. -/
def c8content : List Char :=
  ['-', '-', '-', '\n', 'c', 'a', 't', 'e', 'g', 'o', 'r', 'y', ':', ' ',
    'a', 'r', 't', '\n', '-', '-', '-']

/-- C8 counterexample: on an input whose front-matter block carries only a
`category` key, the required keys are absent yet `parseSkillMd` does NOT
return the empty result object — the category field is populated — refuting
the claim that an absent required key yields an empty result. -/
theorem parseSkillMd_counterexample :
    (parseSkillMd c8content).name = none ∧
    (parseSkillMd c8content).description = none ∧
    parseSkillMd c8content ≠ emptySkillMdResult ∧
    parseSkillMd c8content
      = { name := none, description := none, category := some ['a', 'r', 't'],
          license := none } := by
  decide

/-- C8 amended: `parseSkillMd` is a total function (it cannot throw); it
returns the empty result object when the text does not begin with a delimited
front-matter block; when the required keys (name, description) are absent the
result merely lacks those fields — other recognized keys may be populated —
and the caller `fetchSkillMetadata` discards the package (returns `none`);
lines that fail to parse or carry unrecognized keys are ignored; recognized
key values are quote-stripped. -/
theorem parseSkillMd_spec (content : List Char) :
    (matchFrontMatter content = none →
      parseSkillMd content = emptySkillMdResult) ∧
    (∀ skillId : List Char,
      (parseSkillMd content).name = none ∨
        (parseSkillMd content).description = none →
      fetchSkillMetadata skillId (some content) = none) ∧
    (∀ (r : SkillMdResult) (line : List Char),
      parseLine line = none → processLine r line = r) ∧
    (∀ (r : SkillMdResult) (line k v : List Char),
      parseLine line = some (k, v) →
      k ∉ ([nameKey, descriptionKey, categoryKey, licenseKey] : List (List Char)) →
      processLine r line = r) ∧
    (∀ (r : SkillMdResult) (line v : List Char),
      parseLine line = some (nameKey, v) →
      (processLine r line).name = some (stripQuotes v)) := by
  refine ⟨?_, ?_, ?_, ?_, ?_⟩
  · intro h
    simp [parseSkillMd, h]
  · intro skillId h
    rcases h with h | h
    · simp [fetchSkillMetadata, h]
    · cases hn : (parseSkillMd content).name <;>
        simp [fetchSkillMetadata, h, hn]
  · intro r line h
    simp [processLine, h]
  · intro r line k v h hk
    simp only [List.mem_cons, List.not_mem_nil, or_false, not_or] at hk
    obtain ⟨h1, h2, h3, h4⟩ := hk
    simp [processLine, h, h1, h2, h3, h4]
  · intro r line v h
    have h1 : nameKey ≠ descriptionKey := by decide
    have h2 : nameKey ≠ categoryKey := by decide
    have h3 : nameKey ≠ licenseKey := by decide
    simp [processLine, h, h1, h2, h3]

/-- Witness for C8's amended theorem: an input with no front-matter block
parses to the empty result and its package is discarded. -/
theorem parseSkillMd_spec_witness :
    parseSkillMd ['h', 'i'] = emptySkillMdResult ∧
    fetchSkillMetadata ['s'] (some ['h', 'i']) = none :=
  ⟨(parseSkillMd_spec ['h', 'i']).1 (by decide),
    (parseSkillMd_spec ['h', 'i']).2.1 ['s'] (Or.inl (by decide))⟩

end SkillMarket
